import Mathlib

/-!
Verification development for the sven-projection-mapper repository
(a React-Native concave projection mapper).

The arithmetic of the source (JavaScript numbers on small grid data) is
embedded as exact rationals `ℚ`; JavaScript strings are embedded as
`List Char`.  Each definition below is a direct translation of the named
source function; comments point at the file and symbol it embeds.
-/

namespace ConcaveMapper

/-! ## JavaScript string model

A JS string is a sequence of characters. `natChars n` is the decimal
rendering produced by the template literal in the source. `jsNum?` models
`Number(s)` restricted to the strings this program actually parses:
`some n` when `s` consists only of decimal digits (note `Number("") = 0`,
matched by the empty list), `none` standing for `NaN` when `s` contains a
non-digit character.  `splitDash` models `s.split('-')`. -/

def digitChar (d : Nat) : Char := Char.ofNat (48 + d)

/-- Decimal digits of `n`, most significant first; the fuel argument makes
the recursion structural (`n + 1` fuel always suffices since `n < 10 ^ (n+1)`). -/
def natCharsAux : Nat → Nat → List Char
  | 0, _ => []
  | fuel + 1, n =>
    if n < 10 then [digitChar n]
    else natCharsAux fuel (n / 10) ++ [digitChar (n % 10)]

def natChars (n : Nat) : List Char := natCharsAux (n + 1) n

def isDig (c : Char) : Bool := decide (48 ≤ c.toNat) && decide (c.toNat ≤ 57)

def digStep (a : Nat) (c : Char) : Nat := 10 * a + (c.toNat - 48)

/-- `Number(s)` on an all-digit string; `none` models `NaN` otherwise. -/
def jsNum? (s : List Char) : Option Nat :=
  if s.all isDig then some (s.foldl digStep 0) else none

/-- `s.split('-')` on the character-list model of a JS string. -/
def splitDash : List Char → List (List Char)
  | [] => [[]]
  | c :: rest =>
    if c = '-' then [] :: splitDash rest
    else
      match splitDash rest with
      | [] => [[c]]
      | s :: ss => (c :: s) :: ss

/-! ## Mesh model (App.tsx / MeshWarpEditor) -/

structure MeshPoint where
  id : List Char
  x : ℚ
  y : ℚ
deriving DecidableEq

abbrev Mesh := List MeshPoint

/-- The id string `` `${r}-${c}` `` of a control point. -/
def mkPointId (r c : Nat) : List Char := natChars r ++ '-' :: natChars c

def mkMeshPoint (rows cols r c : Nat) : MeshPoint :=
  { id := mkPointId r c
  , x := (c : ℚ) / ((cols : ℚ) - 1)
  , y := (r : ℚ) / ((rows : ℚ) - 1) }

/-- `buildDefaultMesh` (App.tsx): nested `for` loops pushing the points in
row-major order, `x = c / (cols - 1)`, `y = r / (rows - 1)`. -/
def buildDefaultMesh (rows cols : Nat) : Mesh :=
  (List.range rows).flatMap fun r =>
    (List.range cols).map fun c => mkMeshPoint rows cols r c

/-! ## Grid-shape derivation (MeshWarpEditor)

`const rows = Math.max(...mesh.map((p) => Number(p.id.split('-')[0]))) + 1 || 1;`
`const cols = Math.max(...mesh.map((p) => Number(p.id.split('-')[1]))) + 1 || 1;`

A `NaN` among the parsed components (modelled by `none`) makes the whole
`Math.max` expression `NaN`, and `NaN + 1 || 1` yields `1`: the derivation
silently defaults instead of failing.  (The embedding covers nonempty
meshes; on an empty mesh JS would produce `-Infinity`.) -/

def idRowNum? (id : List Char) : Option Nat :=
  match (splitDash id)[0]? with
  | some s => jsNum? s
  | none => none

def idColNum? (id : List Char) : Option Nat :=
  match (splitDash id)[1]? with
  | some s => jsNum? s
  | none => none

def derivedRows (mesh : Mesh) : Nat :=
  if (mesh.map fun p => idRowNum? p.id).any (fun v => v.isNone) then 1
  else ((mesh.map fun p => idRowNum? p.id).filterMap id).foldl max 0 + 1

def derivedCols (mesh : Mesh) : Nat :=
  if (mesh.map fun p => idColNum? p.id).any (fun v => v.isNone) then 1
  else ((mesh.map fun p => idColNum? p.id).filterMap id).foldl max 0 + 1

/-! ## Interactive editor: hit test and drag update (MeshWarpEditor) -/

structure Size where
  width : ℚ
  height : ℚ
deriving DecidableEq

def HANDLE_RADIUS : ℚ := 12
def HANDLE_HIT_SLOP : ℚ := 20

/-- Squared pixel distance from the touch to a point's pixel position
`(p.x * width, p.y * height)`. -/
def distSq (size : Size) (touchX touchY : ℚ) (p : MeshPoint) : ℚ :=
  (touchX - p.x * size.width) ^ 2 + (touchY - p.y * size.height) ^ 2

/-- The loop body of `findNearestPoint`: `if (dist < minDist) { minDist =
dist; nearest = point.id; }`, on squared distances. -/
def fnpStep (size : Size) (touchX touchY : ℚ) (acc : ℚ × Option (List Char))
    (p : MeshPoint) : ℚ × Option (List Char) :=
  if distSq size touchX touchY p < acc.1 then (distSq size touchX touchY p, some p.id)
  else acc

/-- `findNearestPoint` (MeshWarpEditor): scan all points keeping the running
minimum, starting from `HANDLE_HIT_SLOP + HANDLE_RADIUS`; a point wins only
with `dist < minDist` (strict).  The source compares
`Math.sqrt(dx^2 + dy^2) < minDist`; since `Math.sqrt` is strictly monotone on
nonnegative reals this is equivalent to comparing squared distances against
the squared running minimum, which keeps the embedding inside `ℚ`. -/
def findNearestPoint (mesh : Mesh) (size : Size) (touchX touchY : ℚ) :
    Option (List Char) :=
  (mesh.foldl (fnpStep size touchX touchY)
    ((HANDLE_HIT_SLOP + HANDLE_RADIUS) ^ 2, none)).2

/-- `updatePoint` (MeshWarpEditor): clamp the touch to
`[0, width] × [0, height]`, normalise, and replace only the matching id. -/
def updatePoint (mesh : Mesh) (size : Size) (id : List Char)
    (touchX touchY : ℚ) : Mesh :=
  let clampedX := max 0 (min size.width touchX)
  let clampedY := max 0 (min size.height touchY)
  mesh.map fun p =>
    if p.id = id then
      { p with x := clampedX / size.width, y := clampedY / size.height }
    else p

/-! ## Warp renderer (MeshWarpCanvas) -/

def lerp (a b t : ℚ) : ℚ := a + (b - a) * t

/-- The `bilinear` closure of `drawWarpedQuad`: interpolate the top edge
`p0 → p1` and the bottom edge `p3 → p2` at `u`, then between them at `v`. -/
def bilinear (p0 p1 p2 p3 : ℚ × ℚ) (u v : ℚ) : ℚ × ℚ :=
  (lerp (lerp p0.1 p1.1 u) (lerp p3.1 p2.1 u) v,
   lerp (lerp p0.2 p1.2 u) (lerp p3.2 p2.2 u) v)

/-- `getMeshPoint` (MeshWarpCanvas): `mesh[row * gridSize + col]` scaled to
output pixels, with the regular-grid fallback when the index misses. -/
def getMeshPoint (mesh : Mesh) (gridSize : Nat) (width height : ℚ)
    (row col : Nat) : ℚ × ℚ :=
  match mesh[row * gridSize + col]? with
  | some p => (p.x * width, p.y * height)
  | none =>
      ((col : ℚ) / ((gridSize : ℚ) - 1) * width,
       (row : ℚ) / ((gridSize : ℚ) - 1) * height)

/-- The four destination corners of sub-cell `(i, j)` of `K` computed inside
`drawWarpedQuad`: bilinear interpolation of the cell corners at
`(u, v) ∈ {i/K, (i+1)/K} × {j/K, (j+1)/K}`, in the order `q0, q1, q2, q3`. -/
def subQuadCorners (p0 p1 p2 p3 : ℚ × ℚ) (K i j : Nat) :
    (ℚ × ℚ) × (ℚ × ℚ) × (ℚ × ℚ) × (ℚ × ℚ) :=
  let u0 := (i : ℚ) / (K : ℚ)
  let u1 := ((i : ℚ) + 1) / (K : ℚ)
  let v0 := (j : ℚ) / (K : ℚ)
  let v1 := ((j : ℚ) + 1) / (K : ℚ)
  (bilinear p0 p1 p2 p3 u0 v0, bilinear p0 p1 p2 p3 u1 v0,
   bilinear p0 p1 p2 p3 u1 v1, bilinear p0 p1 p2 p3 u0 v1)

/-- `cellWidth = videoWidth / (gridSize - 1)` of `render` (and the same for
the height). -/
def cellSide (video : ℚ) (gridSize : Nat) : ℚ := video / ((gridSize : ℚ) - 1)

/-- `subSrcX = srcX + srcW * u0` with `srcX = col * cellWidth`,
`srcW = cellWidth` (and the analogous `subSrcY`). -/
def subSrcCoord (video : ℚ) (gridSize K idx i : Nat) : ℚ :=
  (idx : ℚ) * cellSide video gridSize +
    cellSide video gridSize * ((i : ℚ) / (K : ℚ))

/-- `subSrcW = srcW / subdivisions` (and the analogous `subSrcH`). -/
def subSrcSide (video : ℚ) (gridSize K : Nat) : ℚ :=
  cellSide video gridSize / (K : ℚ)

/-! ## Mesh history (useMeshHistory.ts / App.tsx)

`History` embeds the pair `historyRef` / `indexRef`; `setMesh`, `undo` and
`redo` are the literal state transitions of the hook, with the bound
`MAX_HISTORY` kept as a parameter `N` (the source instantiates it at 50 in
the hook and at 30 in App.tsx).  The `JSON.stringify` deep-equality no-op
check is structural equality on `Mesh`. -/

structure History where
  states : List Mesh
  index : Nat
deriving DecidableEq

/-- `setMesh`: no-op when the new mesh deep-equals `states[index]`; else
truncate the future (`slice(0, index + 1)`), push, and either `shift()`
(dropping the oldest, index not advanced) when the bound is exceeded or
advance the index. -/
def setMesh (N : Nat) (h : History) (m : Mesh) : History :=
  if h.states[h.index]? = some m then h
  else
    let pushed := h.states.take (h.index + 1) ++ [m]
    if N < pushed.length then { states := pushed.drop 1, index := h.index }
    else { states := pushed, index := h.index + 1 }

def undo (h : History) : History :=
  if 0 < h.index then { states := h.states, index := h.index - 1 } else h

def redo (h : History) : History :=
  if h.index < h.states.length - 1 then
    { states := h.states, index := h.index + 1 }
  else h

/-- The mesh currently presented (`states[index]`, what `setMeshInternal`
holds after every operation). -/
def currentMesh (h : History) : Option Mesh := h.states[h.index]?

/-- Seed a single-element history and record `s 1, …, s k` in order. -/
def recordSeq (N : Nat) (s : Nat → Mesh) : Nat → History
  | 0 => { states := [s 0], index := 0 }
  | k + 1 => setMesh N (recordSeq N s k) (s (k + 1))

/-! ## Cue / playback controller (PlaybackScreen, App.tsx) -/

structure VideoCue where
  id : String
  name : String
  uri : String
  loop : Bool
  createdAt : Nat
deriving DecidableEq

structure PlaybackState where
  playing : Bool
  armed : Bool
  showControls : Bool
  blackout : Bool
  currentCueIndex : Nat
deriving DecidableEq

def TRIGGER_KEYS : List String :=
  [" ", "Enter", "ArrowUp", "MediaPlayPause", "AudioVolumeUp",
   "AudioVolumeDown", "VolumeUp", "VolumeDown"]

def NEXT_CUE_KEYS : List String := ["ArrowRight", "n", "N"]

def PREV_CUE_KEYS : List String := ["ArrowLeft", "p", "P"]

/-- `handleNextCue` (App.tsx): advance only when a next cue exists. -/
def handleNextCueIdx (cues : List VideoCue) (idx : Nat) : Nat :=
  if idx < cues.length - 1 then idx + 1 else idx

/-- `handlePrevCue` (App.tsx). -/
def handlePrevCueIdx (idx : Nat) : Nat :=
  if 0 < idx then idx - 1 else idx

/-- `handleKeyPress` (PlaybackScreen): Escape toggles blackout (forcing
Playing back to Armed); cue navigation only while not playing; then the
`!armed || blackout` guard; then the trigger-key check. -/
def handleKeyPress (cues : List VideoCue) (st : PlaybackState) (key : String) :
    PlaybackState :=
  if key = "Escape" then
    let st1 := { st with blackout := !st.blackout }
    if st.playing then { st1 with playing := false, armed := true } else st1
  else if st.playing = false ∧ key ∈ NEXT_CUE_KEYS then
    { st with currentCueIndex := handleNextCueIdx cues st.currentCueIndex }
  else if st.playing = false ∧ key ∈ PREV_CUE_KEYS then
    { st with currentCueIndex := handlePrevCueIdx st.currentCueIndex }
  else if st.armed = false ∨ st.blackout then st
  else if key ∈ TRIGGER_KEYS then
    { st with playing := true, armed := false, showControls := false }
  else st

/-- `handleManualTrigger` (PlaybackScreen). -/
def handleManualTrigger (st : PlaybackState) : PlaybackState :=
  if st.armed = false ∨ st.blackout then st
  else { st with playing := true, armed := false, showControls := false }

/-- `currentCueLoop` as App.tsx computes it:
`videoCues[currentCueIndex]?.loop || false`. -/
def currentCueLoop (cues : List VideoCue) (idx : Nat) : Bool :=
  ((cues[idx]?).map VideoCue.loop).getD false

/-- `handlePlaybackFinished` (PlaybackScreen): stop, re-arm, and auto-advance
the cue cursor when the current cue does not loop and a next cue exists. -/
def handlePlaybackFinished (cues : List VideoCue) (st : PlaybackState) :
    PlaybackState :=
  let st1 := { st with playing := false, armed := true }
  if currentCueLoop cues st.currentCueIndex = false ∧
      st.currentCueIndex < cues.length - 1 then
    { st1 with currentCueIndex := handleNextCueIdx cues st1.currentCueIndex }
  else st1

/-! ## Lemmas on the string model -/

theorem digitChar_toNat (d : Nat) (hd : d < 10) : (digitChar d).toNat = 48 + d := by
  interval_cases d <;> decide

theorem digitChar_isDig (d : Nat) (hd : d < 10) : isDig (digitChar d) = true := by
  interval_cases d <;> decide

theorem natCharsAux_spec (fuel : Nat) :
    ∀ n, n < 10 ^ fuel →
      (natCharsAux fuel n).all isDig = true ∧
        ∀ a, (natCharsAux fuel n).foldl digStep a =
          a * 10 ^ (natCharsAux fuel n).length + n := by
  induction fuel with
  | zero =>
    intro n hn
    interval_cases n
    simp [natCharsAux]
  | succ fuel ih =>
    intro n hn
    by_cases h10 : n < 10
    · refine ⟨?_, ?_⟩
      · simp [natCharsAux, h10, digitChar_isDig n h10]
      · intro a
        simp [natCharsAux, h10, digStep, digitChar_toNat n h10]
        ring
    · have hdiv : n / 10 < 10 ^ fuel := by
        rw [Nat.div_lt_iff_lt_mul (by norm_num)]
        calc n < 10 ^ (fuel + 1) := hn
        _ = 10 ^ fuel * 10 := by ring
      obtain ⟨hall, hfold⟩ := ih (n / 10) hdiv
      have hmod : n % 10 < 10 := Nat.mod_lt _ (by norm_num)
      refine ⟨?_, ?_⟩
      · simp only [natCharsAux, if_neg h10, List.all_append, hall,
          List.all_cons, List.all_nil, digitChar_isDig _ hmod,
          Bool.and_self, Bool.true_and]
      · intro a
        simp only [natCharsAux, if_neg h10, List.foldl_append, hfold,
          List.foldl_cons, List.foldl_nil, List.length_append,
          List.length_cons, List.length_nil, digStep,
          digitChar_toNat _ hmod]
        have := Nat.div_add_mod n 10
        have h48 : 48 + n % 10 - 48 = n % 10 := by omega
        rw [h48, pow_succ]
        ring_nf
        omega

theorem natChars_all_isDig (n : Nat) : (natChars n).all isDig = true :=
  (natCharsAux_spec (n + 1) n (Nat.lt_pow_self (by norm_num) n |>.trans_le
    (Nat.pow_le_pow_right (by norm_num) (Nat.le_succ n)))).1

theorem jsNum?_natChars (n : Nat) : jsNum? (natChars n) = some n := by
  have hlt : n < 10 ^ (n + 1) :=
    (Nat.lt_pow_self (by norm_num) n).trans_le
      (Nat.pow_le_pow_right (by norm_num) (Nat.le_succ n))
  obtain ⟨hall, hfold⟩ := natCharsAux_spec (n + 1) n hlt
  simp [jsNum?, natChars, hall, hfold 0]

theorem dash_not_mem_natChars (n : Nat) : '-' ∉ natChars n := by
  intro hmem
  have hall := natChars_all_isDig n
  rw [List.all_eq_true] at hall
  have := hall _ hmem
  simp [isDig] at this

theorem splitDash_no_dash (s : List Char) (h : '-' ∉ s) : splitDash s = [s] := by
  induction s with
  | nil => rfl
  | cons c rest ih =>
    have hc : c ≠ '-' := fun hc => h (hc ▸ List.mem_cons_self c rest)
    have hrest : '-' ∉ rest := fun hr => h (List.mem_cons_of_mem c hr)
    simp [splitDash, hc, ih hrest]

theorem splitDash_append (a b : List Char) (h : '-' ∉ a) :
    splitDash (a ++ '-' :: b) = a :: splitDash b := by
  induction a with
  | nil => simp [splitDash]
  | cons c rest ih =>
    have hc : c ≠ '-' := fun hc => h (hc ▸ List.mem_cons_self c rest)
    have hrest : '-' ∉ rest := fun hr => h (List.mem_cons_of_mem c hr)
    simp only [List.cons_append, splitDash, if_neg hc, List.append_eq, ih hrest]

theorem splitDash_mkPointId (r c : Nat) :
    splitDash (mkPointId r c) = [natChars r, natChars c] := by
  rw [mkPointId, splitDash_append _ _ (dash_not_mem_natChars r),
    splitDash_no_dash _ (dash_not_mem_natChars c)]

theorem idRowNum?_mkPointId (r c : Nat) : idRowNum? (mkPointId r c) = some r := by
  simp [idRowNum?, splitDash_mkPointId, jsNum?_natChars]

theorem idColNum?_mkPointId (r c : Nat) : idColNum? (mkPointId r c) = some c := by
  simp [idColNum?, splitDash_mkPointId, jsNum?_natChars]

theorem mkPointId_inj {r c r2 c2 : Nat} (h : mkPointId r c = mkPointId r2 c2) :
    r = r2 ∧ c = c2 := by
  have hr := idRowNum?_mkPointId r c
  have hc := idColNum?_mkPointId r c
  rw [h, idRowNum?_mkPointId] at hr
  rw [h, idColNum?_mkPointId] at hc
  exact ⟨(Option.some_inj.mp hr).symm, (Option.some_inj.mp hc).symm⟩

/-! ## Lemmas on the generated grid -/

theorem flatMap_range_length {α : Type _} (f : Nat → List α) (L : Nat)
    (hL : ∀ k, (f k).length = L) (n : Nat) :
    ((List.range n).flatMap f).length = n * L := by
  induction n with
  | zero => simp
  | succ n ih =>
    rw [List.range_succ, List.flatMap_append, List.length_append, ih]
    simp [hL n, Nat.succ_mul]

theorem flatMap_range_getElem? {α : Type _} (f : Nat → List α) (L : Nat)
    (hL : ∀ k, (f k).length = L) (n r c : Nat) (hr : r < n) (hc : c < L) :
    ((List.range n).flatMap f)[r * L + c]? = (f r)[c]? := by
  induction n with
  | zero => omega
  | succ n ih =>
    rw [List.range_succ, List.flatMap_append]
    rcases Nat.lt_or_ge r n with hlt | hge
    · have hr1 : r + 1 ≤ n := hlt
      have hlen : r * L + c < ((List.range n).flatMap f).length := by
        rw [flatMap_range_length f L hL]
        calc r * L + c < r * L + L := Nat.add_lt_add_left hc _
          _ = (r + 1) * L := by ring
          _ ≤ n * L := mul_le_mul_right' hr1 L
      rw [List.getElem?_append, if_pos hlen]
      exact ih hlt
    · have hrn : r = n := by omega
      subst hrn
      have hlen := flatMap_range_length f L hL r
      rw [List.getElem?_append, if_neg (by rw [hlen]; omega), hlen]
      simp only [List.flatMap_cons, List.flatMap_nil, List.append_nil]
      congr 1
      omega

theorem buildDefaultMesh_length (rows cols : Nat) :
    (buildDefaultMesh rows cols).length = rows * cols := by
  exact flatMap_range_length _ cols (fun k => by simp) rows

theorem buildDefaultMesh_getElem? (rows cols r c : Nat) (hr : r < rows)
    (hc : c < cols) :
    (buildDefaultMesh rows cols)[r * cols + c]? = some (mkMeshPoint rows cols r c) := by
  rw [buildDefaultMesh, flatMap_range_getElem? _ cols (fun k => by simp) rows r c hr hc]
  simp [hc]

theorem mem_buildDefaultMesh {rows cols : Nat} {p : MeshPoint} :
    p ∈ buildDefaultMesh rows cols ↔
      ∃ r c, r < rows ∧ c < cols ∧ p = mkMeshPoint rows cols r c := by
  simp only [buildDefaultMesh, List.mem_flatMap, List.mem_map, List.mem_range]
  constructor
  · rintro ⟨r, hr, c, hc, rfl⟩
    exact ⟨r, c, hr, hc, rfl⟩
  · rintro ⟨r, c, hr, hc, rfl⟩
    exact ⟨r, hr, c, hc, rfl⟩

theorem buildDefaultMesh_ids_nodup (rows cols : Nat) :
    ((buildDefaultMesh rows cols).map MeshPoint.id).Nodup := by
  rw [buildDefaultMesh, List.map_flatMap]
  rw [List.nodup_flatMap]
  constructor
  · intro r _
    rw [List.map_map]
    refine List.Nodup.map ?_ (List.nodup_range cols)
    intro c1 c2 hcc
    exact (mkPointId_inj hcc).2
  · refine (List.pairwise_lt_range rows).imp ?_
    intro r1 r2 hlt x hx1 hx2
    simp only [List.map_map, List.mem_map] at hx1 hx2
    obtain ⟨c1, _, hc1⟩ := hx1
    obtain ⟨c2, _, hc2⟩ := hx2
    have : mkPointId r1 c1 = mkPointId r2 c2 := by
      rw [show (MeshPoint.id ∘ fun c => mkMeshPoint rows cols r1 c) c1 = mkPointId r1 c1
        from rfl] at hc1
      rw [show (MeshPoint.id ∘ fun c => mkMeshPoint rows cols r2 c) c2 = mkPointId r2 c2
        from rfl] at hc2
      rw [hc1, hc2]
    exact absurd (mkPointId_inj this).1 (Nat.ne_of_lt hlt)

theorem init_le_foldl_max (l : List Nat) : ∀ a, a ≤ l.foldl max a := by
  induction l with
  | nil => simp
  | cons x xs ih =>
    intro a
    simp only [List.foldl_cons]
    exact le_trans (le_max_left a x) (ih (max a x))

theorem mem_le_foldl_max (l : List Nat) : ∀ a x, x ∈ l → x ≤ l.foldl max a := by
  induction l with
  | nil =>
    intro a x hx
    simp at hx
  | cons y ys ih =>
    intro a x hx
    rcases List.mem_cons.mp hx with rfl | hmem
    · exact le_trans (le_max_right a x) (init_le_foldl_max ys (max a x))
    · exact ih (max a y) x hmem

theorem foldl_max_le (l : List Nat) (b : Nat) :
    ∀ a, a ≤ b → (∀ x ∈ l, x ≤ b) → l.foldl max a ≤ b := by
  induction l with
  | nil =>
    intro a ha _
    simpa using ha
  | cons x xs ih =>
    intro a ha hx
    simp only [List.foldl_cons]
    exact ih (max a x) (max_le ha (hx x (List.mem_cons_self x xs)))
      (fun y hy => hx y (List.mem_cons_of_mem x hy))

theorem derivedRows_buildDefaultMesh (rows cols : Nat) (hr : 1 ≤ rows)
    (hc : 1 ≤ cols) : derivedRows (buildDefaultMesh rows cols) = rows := by
  have hany : ((buildDefaultMesh rows cols).map fun p => idRowNum? p.id).any
      (fun v => v.isNone) = false := by
    rw [List.any_eq_false]
    intro v hv
    rw [List.mem_map] at hv
    obtain ⟨p, hp, rfl⟩ := hv
    obtain ⟨r, c, _, _, rfl⟩ := mem_buildDefaultMesh.mp hp
    simp [mkMeshPoint, idRowNum?_mkPointId]
  rw [derivedRows, if_neg (by simp [hany])]
  have hval : (((buildDefaultMesh rows cols).map fun p => idRowNum? p.id).filterMap
      id).foldl max 0 = rows - 1 := by
    apply le_antisymm
    · apply foldl_max_le _ _ _ (by omega)
      intro x hx
      rw [List.mem_filterMap] at hx
      obtain ⟨v, hv, hvx⟩ := hx
      rw [List.mem_map] at hv
      obtain ⟨p, hp, rfl⟩ := hv
      obtain ⟨r, c, hrr, _, rfl⟩ := mem_buildDefaultMesh.mp hp
      rw [show (mkMeshPoint rows cols r c).id = mkPointId r c from rfl,
        idRowNum?_mkPointId] at hvx
      simp only [id] at hvx
      obtain rfl : r = x := Option.some_inj.mp hvx
      omega
    · apply mem_le_foldl_max
      rw [List.mem_filterMap]
      refine ⟨some (rows - 1), ?_, rfl⟩
      rw [List.mem_map]
      refine ⟨mkMeshPoint rows cols (rows - 1) 0, ?_, ?_⟩
      · exact mem_buildDefaultMesh.mpr ⟨rows - 1, 0, by omega, by omega, rfl⟩
      · rw [show (mkMeshPoint rows cols (rows - 1) 0).id = mkPointId (rows - 1) 0
          from rfl, idRowNum?_mkPointId]
  rw [hval]
  omega

theorem derivedCols_buildDefaultMesh (rows cols : Nat) (hr : 1 ≤ rows)
    (hc : 1 ≤ cols) : derivedCols (buildDefaultMesh rows cols) = cols := by
  have hany : ((buildDefaultMesh rows cols).map fun p => idColNum? p.id).any
      (fun v => v.isNone) = false := by
    rw [List.any_eq_false]
    intro v hv
    rw [List.mem_map] at hv
    obtain ⟨p, hp, rfl⟩ := hv
    obtain ⟨r, c, _, _, rfl⟩ := mem_buildDefaultMesh.mp hp
    simp [mkMeshPoint, idColNum?_mkPointId]
  rw [derivedCols, if_neg (by simp [hany])]
  have hval : (((buildDefaultMesh rows cols).map fun p => idColNum? p.id).filterMap
      id).foldl max 0 = cols - 1 := by
    apply le_antisymm
    · apply foldl_max_le _ _ _ (by omega)
      intro x hx
      rw [List.mem_filterMap] at hx
      obtain ⟨v, hv, hvx⟩ := hx
      rw [List.mem_map] at hv
      obtain ⟨p, hp, rfl⟩ := hv
      obtain ⟨r, c, _, hcc, rfl⟩ := mem_buildDefaultMesh.mp hp
      rw [show (mkMeshPoint rows cols r c).id = mkPointId r c from rfl,
        idColNum?_mkPointId] at hvx
      simp only [id] at hvx
      obtain rfl : c = x := Option.some_inj.mp hvx
      omega
    · apply mem_le_foldl_max
      rw [List.mem_filterMap]
      refine ⟨some (cols - 1), ?_, rfl⟩
      rw [List.mem_map]
      refine ⟨mkMeshPoint rows cols 0 (cols - 1), ?_, ?_⟩
      · exact mem_buildDefaultMesh.mpr ⟨0, cols - 1, by omega, by omega, rfl⟩
      · rw [show (mkMeshPoint rows cols 0 (cols - 1)).id = mkPointId 0 (cols - 1)
          from rfl, idColNum?_mkPointId]
  rw [hval]
  omega

/-- C1: for `rows, cols ≥ 2`, `buildDefaultMesh` produces exactly
`rows * cols` points, with pairwise-distinct ids, the point at row-major
index `r * cols + c` being `{ id := "r-c", x := c / (cols - 1),
y := r / (rows - 1) }`, all coordinates in `[0, 1]`, and the grid-shape
derivation (max row/col index in the ids plus 1) recovers exactly
`(rows, cols)`. -/
theorem C1_generate_spec (rows cols : Nat) (hr : 2 ≤ rows) (hc : 2 ≤ cols) :
    (buildDefaultMesh rows cols).length = rows * cols
    ∧ ((buildDefaultMesh rows cols).map MeshPoint.id).Nodup
    ∧ (∀ r c, r < rows → c < cols →
        (buildDefaultMesh rows cols)[r * cols + c]? =
          some { id := mkPointId r c, x := (c : ℚ) / ((cols : ℚ) - 1),
                 y := (r : ℚ) / ((rows : ℚ) - 1) })
    ∧ (∀ p ∈ buildDefaultMesh rows cols,
        0 ≤ p.x ∧ p.x ≤ 1 ∧ 0 ≤ p.y ∧ p.y ≤ 1)
    ∧ derivedRows (buildDefaultMesh rows cols) = rows
    ∧ derivedCols (buildDefaultMesh rows cols) = cols := by
  refine ⟨buildDefaultMesh_length rows cols, buildDefaultMesh_ids_nodup rows cols,
    ?_, ?_, derivedRows_buildDefaultMesh rows cols (by omega) (by omega),
    derivedCols_buildDefaultMesh rows cols (by omega) (by omega)⟩
  · intro r c hrr hcc
    exact buildDefaultMesh_getElem? rows cols r c hrr hcc
  · intro p hp
    obtain ⟨r, c, hrr, hcc, rfl⟩ := mem_buildDefaultMesh.mp hp
    have hcolsQ : (1 : ℚ) ≤ (cols : ℚ) - 1 := by
      have : (2 : ℚ) ≤ (cols : ℚ) := by exact_mod_cast hc
      linarith
    have hrowsQ : (1 : ℚ) ≤ (rows : ℚ) - 1 := by
      have : (2 : ℚ) ≤ (rows : ℚ) := by exact_mod_cast hr
      linarith
    have hcQ : (c : ℚ) ≤ (cols : ℚ) - 1 := by
      have : (c : ℚ) + 1 ≤ (cols : ℚ) := by exact_mod_cast hcc
      linarith
    have hrQ : (r : ℚ) ≤ (rows : ℚ) - 1 := by
      have : (r : ℚ) + 1 ≤ (rows : ℚ) := by exact_mod_cast hrr
      linarith
    refine ⟨div_nonneg (Nat.cast_nonneg c) (by linarith), ?_,
      div_nonneg (Nat.cast_nonneg r) (by linarith), ?_⟩
    · rw [mkMeshPoint, div_le_one (by linarith)]
      exact hcQ
    · rw [mkMeshPoint, div_le_one (by linarith)]
      exact hrQ

theorem C1_witness :
    2 ≤ 2
    ∧ (buildDefaultMesh 2 2).length = 2 * 2
    ∧ ((buildDefaultMesh 2 2).map MeshPoint.id).Nodup
    ∧ derivedRows (buildDefaultMesh 2 2) = 2
    ∧ derivedCols (buildDefaultMesh 2 2) = 2 :=
  ⟨by decide, (C1_generate_spec 2 2 (by decide) (by decide)).1,
   (C1_generate_spec 2 2 (by decide) (by decide)).2.1,
   (C1_generate_spec 2 2 (by decide) (by decide)).2.2.2.2.1,
   (C1_generate_spec 2 2 (by decide) (by decide)).2.2.2.2.2⟩

theorem getMeshPoint_identity (g : Nat) (W H : ℚ) (r c : Nat) (hr : r < g)
    (hc : c < g) :
    getMeshPoint (buildDefaultMesh g g) g W H r c =
      ((c : ℚ) / ((g : ℚ) - 1) * W, (r : ℚ) / ((g : ℚ) - 1) * H) := by
  rw [getMeshPoint, buildDefaultMesh_getElem? g g r c hr hc]
  rfl

set_option maxHeartbeats 1600000 in
/-- C2: on the identity mesh (the undragged `buildDefaultMesh` output at the
renderer's grid size), every sub-cell of every cell has its four bilinearly
interpolated destination corners equal to the corners of the axis-aligned
rectangle that is the proportional source sub-rectangle scaled by the
per-axis source-to-output factors `W / vw` and `H / vh`: the source frame
geometry is reproduced unchanged. -/
theorem C2_identity_warp (g K : Nat) (hg : 2 ≤ g) (hK : 1 ≤ K)
    (W H vw vh : ℚ) (hvw : vw ≠ 0) (hvh : vh ≠ 0)
    (row col i j : Nat) (hrow : row < g - 1) (hcol : col < g - 1)
    (hi : i < K) (hj : j < K) :
    subQuadCorners
      (getMeshPoint (buildDefaultMesh g g) g W H row col)
      (getMeshPoint (buildDefaultMesh g g) g W H row (col + 1))
      (getMeshPoint (buildDefaultMesh g g) g W H (row + 1) (col + 1))
      (getMeshPoint (buildDefaultMesh g g) g W H (row + 1) col) K i j =
      ((subSrcCoord vw g K col i * (W / vw),
        subSrcCoord vh g K row j * (H / vh)),
       ((subSrcCoord vw g K col i + subSrcSide vw g K) * (W / vw),
        subSrcCoord vh g K row j * (H / vh)),
       ((subSrcCoord vw g K col i + subSrcSide vw g K) * (W / vw),
        (subSrcCoord vh g K row j + subSrcSide vh g K) * (H / vh)),
       (subSrcCoord vw g K col i * (W / vw),
        (subSrcCoord vh g K row j + subSrcSide vh g K) * (H / vh))) := by
  have hrow1 : row < g := by omega
  have hrow2 : row + 1 < g := by omega
  have hcol1 : col < g := by omega
  have hcol2 : col + 1 < g := by omega
  rw [getMeshPoint_identity g W H row col hrow1 hcol1,
    getMeshPoint_identity g W H row (col + 1) hrow1 hcol2,
    getMeshPoint_identity g W H (row + 1) (col + 1) hrow2 hcol2,
    getMeshPoint_identity g W H (row + 1) col hrow2 hcol1]
  have hgQ : (g : ℚ) - 1 ≠ 0 := by
    have : (2 : ℚ) ≤ (g : ℚ) := by exact_mod_cast hg
    intro hzero
    linarith
  have hKQ : (K : ℚ) ≠ 0 := by
    have : (1 : ℚ) ≤ (K : ℚ) := by exact_mod_cast hK
    intro hzero
    linarith
  simp only [subQuadCorners, bilinear, lerp, subSrcCoord, subSrcSide, cellSide,
    Prod.mk.injEq]
  push_cast
  refine ⟨⟨?_, ?_⟩, ⟨?_, ?_⟩, ⟨?_, ?_⟩, ?_, ?_⟩ <;>
    (field_simp; ring)

theorem C2_witness :
    2 ≤ 4 ∧ 1 ≤ 2 ∧ (400 : ℚ) ≠ 0 ∧ 1 < 4 - 1 ∧ 2 < 4 - 1 ∧ 1 < 2 ∧ 0 < 2
    ∧ subQuadCorners
        (getMeshPoint (buildDefaultMesh 4 4) 4 800 800 1 2)
        (getMeshPoint (buildDefaultMesh 4 4) 4 800 800 1 (2 + 1))
        (getMeshPoint (buildDefaultMesh 4 4) 4 800 800 (1 + 1) (2 + 1))
        (getMeshPoint (buildDefaultMesh 4 4) 4 800 800 (1 + 1) 2) 2 1 0 =
        ((subSrcCoord 400 4 2 2 1 * (800 / 400),
          subSrcCoord 400 4 2 1 0 * (800 / 400)),
         ((subSrcCoord 400 4 2 2 1 + subSrcSide 400 4 2) * (800 / 400),
          subSrcCoord 400 4 2 1 0 * (800 / 400)),
         ((subSrcCoord 400 4 2 2 1 + subSrcSide 400 4 2) * (800 / 400),
          (subSrcCoord 400 4 2 1 0 + subSrcSide 400 4 2) * (800 / 400)),
         (subSrcCoord 400 4 2 2 1 * (800 / 400),
          (subSrcCoord 400 4 2 1 0 + subSrcSide 400 4 2) * (800 / 400))) :=
  ⟨by decide, by decide, by norm_num, by decide, by decide, by decide, by decide,
    C2_identity_warp 4 2 (by decide) (by decide) 800 800 400 400 (by norm_num)
      (by norm_num) 1 2 1 0 (by decide) (by decide) (by decide) (by decide)⟩

/-! ## Lemmas on the history state machine -/

theorem setMesh_eq (N : Nat) (h : History) (m : Mesh)
    (hne : ¬h.states[h.index]? = some m) :
    setMesh N h m =
      if N < (h.states.take (h.index + 1) ++ [m]).length then
        { states := (h.states.take (h.index + 1) ++ [m]).drop 1, index := h.index }
      else { states := h.states.take (h.index + 1) ++ [m], index := h.index + 1 } := by
  simp only [setMesh, if_neg hne]

/-- A real (non-no-op) record from a valid history: the result is valid,
its cursor is at least 1, the new mesh sits at the cursor, and the previous
current mesh sits just before it. -/
theorem setMesh_step (N : Nat) (h : History) (m cur : Mesh) (hN : 2 ≤ N)
    (hval : h.index < h.states.length)
    (hcur : h.states[h.index]? = some cur) (hne : m ≠ cur) :
    (setMesh N h m).index < (setMesh N h m).states.length
    ∧ 1 ≤ (setMesh N h m).index
    ∧ (setMesh N h m).states[(setMesh N h m).index]? = some m
    ∧ (setMesh N h m).states[(setMesh N h m).index - 1]? = some cur := by
  have hnoteq : ¬h.states[h.index]? = some m := by
    rw [hcur]
    intro he
    exact hne (Option.some_inj.mp he).symm
  rw [setMesh_eq N h m hnoteq]
  have htakelen : (h.states.take (h.index + 1)).length = h.index + 1 := by
    rw [List.length_take]
    omega
  have hpushlen : (h.states.take (h.index + 1) ++ [m]).length = h.index + 2 := by
    rw [List.length_append, htakelen]
    rfl
  by_cases hb : N < (h.states.take (h.index + 1) ++ [m]).length
  · rw [if_pos hb]
    rw [hpushlen] at hb
    dsimp only
    have hidx : 1 ≤ h.index := by omega
    refine ⟨?_, hidx, ?_, ?_⟩
    · rw [List.length_drop, hpushlen]
      omega
    · rw [List.getElem?_drop, List.getElem?_append,
        if_neg (by rw [htakelen]; omega), htakelen,
        show 1 + h.index - (h.index + 1) = 0 from by omega]
      rfl
    · rw [List.getElem?_drop, show 1 + (h.index - 1) = h.index from by omega,
        List.getElem?_append, if_pos (by rw [htakelen]; omega),
        List.getElem?_take, if_pos (by omega), hcur]
  · rw [if_neg hb]
    rw [hpushlen] at hb
    dsimp only
    refine ⟨?_, by omega, ?_, ?_⟩
    · rw [hpushlen]
      omega
    · rw [List.getElem?_append, if_neg (by rw [htakelen]; omega), htakelen,
        show h.index + 1 - (h.index + 1) = 0 from by omega]
      rfl
    · rw [show h.index + 1 - 1 = h.index from by omega, List.getElem?_append,
        if_pos (by rw [htakelen]; omega), List.getElem?_take,
        if_pos (by omega), hcur]

/-- Growth phase: as long as the bound is not reached, recording
`s 1, …, s k` from the seed `s 0` yields states `[s 0, …, s k]` with the
cursor at `k`. -/
theorem recordSeq_growth (N : Nat) (s : Nat → Mesh)
    (hinj : ∀ i, i < N + 6 → ∀ j, j < N + 6 → s i = s j → i = j) :
    ∀ k, k + 1 ≤ N → k + 1 ≤ N + 6 →
      recordSeq N s k = { states := (List.range (k + 1)).map s, index := k } := by
  intro k
  induction k with
  | zero =>
    intro _ _
    rw [recordSeq, show List.range 1 = [0] from by rw [List.range_succ]; rfl]
    rfl
  | succ k ih =>
    intro hk hk6
    have hstate := ih (by omega) (by omega)
    rw [recordSeq, hstate]
    have hcur : ((List.range (k + 1)).map s)[k]? = some (s k) := by
      rw [List.getElem?_map, List.getElem?_range (by omega)]
      rfl
    have hne : ¬((List.range (k + 1)).map s)[(k : Nat)]? = some (s (k + 1)) := by
      rw [hcur]
      intro he
      have := hinj k (by omega) (k + 1) (by omega) (Option.some_inj.mp he)
      omega
    rw [setMesh_eq N { states := (List.range (k + 1)).map s, index := k } (s (k + 1)) hne]
    dsimp only
    have hlen : ((List.range (k + 1)).map s).length = k + 1 := by
      rw [List.length_map, List.length_range]
    have htake : ((List.range (k + 1)).map s).take (k + 1) = (List.range (k + 1)).map s :=
      List.take_of_length_le (le_of_eq hlen)
    have hpush : (List.range (k + 1 + 1)).map s = (List.range (k + 1)).map s ++ [s (k + 1)] := by
      rw [List.range_succ, List.map_append]
      rfl
    rw [htake, ← hpush]
    rw [if_neg (by
      rw [List.length_map, List.length_range]
      omega)]

/-- Saturated phase: once the bound is reached, every further record shifts
the window one step and keeps the cursor pinned at `N - 1`. -/
theorem recordSeq_saturated (N : Nat) (s : Nat → Mesh) (hN : 1 ≤ N)
    (hinj : ∀ i, i < N + 6 → ∀ j, j < N + 6 → s i = s j → i = j) :
    ∀ d, d ≤ 6 →
      recordSeq N s (N - 1 + d) =
        { states := (List.range N).map fun i => s (d + i), index := N - 1 } := by
  obtain ⟨M, rfl⟩ : ∃ M, N = M + 1 := ⟨N - 1, by omega⟩
  simp only [Nat.add_sub_cancel]
  intro d
  induction d with
  | zero =>
    intro _
    calc recordSeq (M + 1) s (M + 0) = recordSeq (M + 1) s M := by norm_num
      _ = { states := (List.range (M + 1)).map s, index := M } :=
          recordSeq_growth (M + 1) s hinj M (by omega) (by omega)
      _ = { states := (List.range (M + 1)).map fun i => s (0 + i), index := M } := by
          congr 1
          exact List.map_congr_left fun a _ => by rw [Nat.zero_add]
  | succ d ih =>
    intro hd
    have hprev := ih (by omega)
    rw [show M + (d + 1) = (M + d) + 1 from by omega, recordSeq, hprev]
    have hidx : ((List.range (M + 1)).map fun i => s (d + i))[M]? =
        some (s (d + M)) := by
      rw [List.getElem?_map, List.getElem?_range (by omega)]
      rfl
    have hne : ¬((List.range (M + 1)).map fun i => s (d + i))[(M : Nat)]? =
        some (s (M + d + 1)) := by
      rw [hidx]
      intro he
      have := hinj (d + M) (by omega) (M + d + 1) (by omega)
        (Option.some_inj.mp he)
      omega
    rw [setMesh_eq (M + 1) _ _ hne]
    dsimp only
    have hlen : ((List.range (M + 1)).map fun i => s (d + i)).length = M + 1 := by
      rw [List.length_map, List.length_range]
    have htake : ((List.range (M + 1)).map fun i => s (d + i)).take (M + 1) =
        (List.range (M + 1)).map fun i => s (d + i) :=
      List.take_of_length_le (le_of_eq hlen)
    rw [htake, if_pos (by
      rw [List.length_append, hlen, List.length_singleton]
      omega)]
    congr 1
    rw [show M + d + 1 = d + 1 + M from by omega]
    conv_rhs => rw [List.range_succ, List.map_append]
    conv_lhs => rw [List.range_succ_eq_map, List.map_cons, List.map_map,
      List.cons_append, List.drop_succ_cons, List.drop_zero]
    congr 1
    exact List.map_congr_left fun a _ => congrArg s (by omega)

/-- C3: a history bounded at `N`, seeded with one initial state, after
recording `N + 5` pairwise-distinct states has exactly `N` snapshots, the
oldest surviving snapshot is the 6th recorded state, and on each over-bound
record the cursor is held at the last valid index `N - 1`. -/
theorem C3_history_bound (N : Nat) (s : Nat → Mesh) (hN : 1 ≤ N)
    (hinj : ∀ i, i < N + 6 → ∀ j, j < N + 6 → s i = s j → i = j) :
    (recordSeq N s (N + 5)).states.length = N
    ∧ (recordSeq N s (N + 5)).states[0]? = some (s 6)
    ∧ (∀ k, N - 1 ≤ k → k ≤ N + 5 → (recordSeq N s k).index = N - 1) := by
  have h6 : N + 5 = N - 1 + 6 := by omega
  refine ⟨?_, ?_, ?_⟩
  · rw [h6, recordSeq_saturated N s hN hinj 6 (by omega)]
    rw [List.length_map, List.length_range]
  · rw [h6, recordSeq_saturated N s hN hinj 6 (by omega)]
    rw [List.getElem?_map, List.getElem?_range (by omega)]
    rfl
  · intro k hk1 hk2
    obtain ⟨d, rfl⟩ : ∃ d, k = N - 1 + d := ⟨k - (N - 1), by omega⟩
    rw [recordSeq_saturated N s hN hinj d (by omega)]

/-- A fixed injective sequence of meshes used to instantiate the history
theorems on concrete inputs. -/
def demoSeq (k : Nat) : Mesh := [{ id := [], x := (k : ℚ), y := 0 }]

theorem C3_witness :
    1 ≤ 2
    ∧ (∀ i, i < 2 + 6 → ∀ j, j < 2 + 6 → demoSeq i = demoSeq j → i = j)
    ∧ (recordSeq 2 demoSeq (2 + 5)).states.length = 2
    ∧ (recordSeq 2 demoSeq (2 + 5)).states[0]? = some (demoSeq 6) :=
  ⟨by decide, by decide,
   (C3_history_bound 2 demoSeq (by decide) (by decide)).1,
   (C3_history_bound 2 demoSeq (by decide) (by decide)).2.1⟩

/-- C4: from any valid history and distinct meshes `A ≠ B`, recording `A`
then `B` then undoing presents `A`; a subsequent redo presents `B`; undo is
a no-op at cursor 0 and redo is a no-op at the last index.  (`N` is the
history bound; the source instantiates it at 50 and 30.) -/
theorem C4_undo_redo (N : Nat) (h : History) (A B : Mesh) (hN : 2 ≤ N)
    (hval : h.index < h.states.length) (hAB : A ≠ B) :
    currentMesh (undo (setMesh N (setMesh N h A) B)) = some A
    ∧ currentMesh (redo (undo (setMesh N (setMesh N h A) B))) = some B
    ∧ (h.index = 0 → undo h = h)
    ∧ (h.index = h.states.length - 1 → redo h = h) := by
  obtain ⟨cur, hcur⟩ : ∃ cur, h.states[h.index]? = some cur :=
    ⟨h.states[h.index], List.getElem?_eq_getElem hval⟩
  have hBA : B ≠ A := fun hba => hAB hba.symm
  have key : ∀ h2 : History,
      h2.index < h2.states.length → 1 ≤ h2.index →
      h2.states[h2.index]? = some B → h2.states[h2.index - 1]? = some A →
      currentMesh (undo h2) = some A ∧ currentMesh (redo (undo h2)) = some B := by
    intro h2 h2val h2idx h2at h2prev
    have hu : undo h2 = { states := h2.states, index := h2.index - 1 } := by
      rw [undo, if_pos (by omega)]
    have hr : redo (undo h2) = { states := h2.states, index := h2.index } := by
      rw [hu, redo]
      dsimp only
      rw [if_pos (by omega)]
      congr 1
      omega
    constructor
    · rw [hu, currentMesh]
      exact h2prev
    · rw [hr, currentMesh]
      exact h2at
  have main : currentMesh (undo (setMesh N (setMesh N h A) B)) = some A
      ∧ currentMesh (redo (undo (setMesh N (setMesh N h A) B))) = some B := by
    by_cases hA : A = cur
    · have hnoop : setMesh N h A = h := by
        rw [setMesh, if_pos (by rw [hcur, hA])]
      rw [hnoop]
      have hstep := setMesh_step N h B A hN hval (by rw [hcur, hA]) hBA
      exact key (setMesh N h B) hstep.1 hstep.2.1 hstep.2.2.1 hstep.2.2.2
    · have hstep1 := setMesh_step N h A cur hN hval hcur hA
      have hstep2 := setMesh_step N (setMesh N h A) B A hN hstep1.1
        hstep1.2.2.1 hBA
      exact key (setMesh N (setMesh N h A) B) hstep2.1 hstep2.2.1
        hstep2.2.2.1 hstep2.2.2.2
  refine ⟨main.1, main.2, ?_, ?_⟩
  · intro h0
    rw [undo, if_neg (by omega)]
  · intro hlast
    rw [redo, if_neg (by omega)]

theorem C4_witness :
    2 ≤ 50
    ∧ (0 : Nat) < 1
    ∧ demoSeq 1 ≠ demoSeq 2
    ∧ currentMesh (undo (setMesh 50 (setMesh 50
        { states := [demoSeq 0], index := 0 } (demoSeq 1)) (demoSeq 2))) =
        some (demoSeq 1)
    ∧ currentMesh (redo (undo (setMesh 50 (setMesh 50
        { states := [demoSeq 0], index := 0 } (demoSeq 1)) (demoSeq 2)))) =
        some (demoSeq 2) :=
  ⟨by decide, by decide, by decide,
   (C4_undo_redo 50 { states := [demoSeq 0], index := 0 } (demoSeq 1) (demoSeq 2)
     (by decide) (by decide) (by decide)).1,
   (C4_undo_redo 50 { states := [demoSeq 0], index := 0 } (demoSeq 1) (demoSeq 2)
     (by decide) (by decide) (by decide)).2.1⟩

/-- C5: recording a mesh that is structurally equal (the embedding of the
`JSON.stringify` deep-equality check) to the state at the cursor is a no-op:
the whole history record — snapshot sequence, length and cursor — is
unchanged. -/
theorem C5_record_noop (N : Nat) (h : History) (m : Mesh)
    (hcur : h.states[h.index]? = some m) : setMesh N h m = h := by
  rw [setMesh, if_pos hcur]

theorem C5_witness :
    ({ states := [demoSeq 0], index := 0 } : History).states[(0 : Nat)]? =
      some (demoSeq 0)
    ∧ setMesh 50 { states := [demoSeq 0], index := 0 } (demoSeq 0) =
      { states := [demoSeq 0], index := 0 } :=
  ⟨by decide,
   C5_record_noop 50 { states := [demoSeq 0], index := 0 } (demoSeq 0) (by decide)⟩

/-! ## Lemmas on the hit test -/

theorem distSq_nonneg (size : Size) (tx ty : ℚ) (p : MeshPoint) :
    0 ≤ distSq size tx ty p :=
  add_nonneg (sq_nonneg _) (sq_nonneg _)

/-- Invariant of the `findNearestPoint` scan after processing the prefix
`pre`: either nothing was selected and every processed point is at least the
threshold away, or the selected point is the first minimum of the processed
prefix and strictly inside the threshold. -/
def FnpInv (size : Size) (tx ty : ℚ) (pre : Mesh)
    (acc : ℚ × Option (List Char)) : Prop :=
  (acc.2 = none →
    acc.1 = (HANDLE_HIT_SLOP + HANDLE_RADIUS) ^ 2 ∧
      ∀ q ∈ pre, (HANDLE_HIT_SLOP + HANDLE_RADIUS) ^ 2 ≤ distSq size tx ty q)
  ∧ (∀ i, acc.2 = some i →
      ∃ l₁ p l₂, pre = l₁ ++ p :: l₂ ∧ p.id = i ∧ distSq size tx ty p = acc.1 ∧
        acc.1 < (HANDLE_HIT_SLOP + HANDLE_RADIUS) ^ 2 ∧
        (∀ q ∈ l₁, acc.1 < distSq size tx ty q) ∧
        (∀ q ∈ l₂, acc.1 ≤ distSq size tx ty q))

theorem fnpInv_step (size : Size) (tx ty : ℚ) (pre : Mesh)
    (acc : ℚ × Option (List Char)) (p : MeshPoint)
    (h : FnpInv size tx ty pre acc) :
    FnpInv size tx ty (pre ++ [p]) (fnpStep size tx ty acc p) := by
  obtain ⟨hnone, hsome⟩ := h
  rw [fnpStep]
  by_cases hd : distSq size tx ty p < acc.1
  · rw [if_pos hd]
    constructor
    · intro hcon
      simp at hcon
    · intro i hi
      have hip : p.id = i := Option.some_inj.mp hi
      have hbound : distSq size tx ty p < (HANDLE_HIT_SLOP + HANDLE_RADIUS) ^ 2 := by
        rcases hacc2 : acc.2 with _ | i0
        · exact (hnone hacc2).1 ▸ hd
        · obtain ⟨l₁, w, l₂, hpre, hwid, hdw, hlt, h1, h2⟩ := hsome i0 hacc2
          exact lt_trans hd hlt
      refine ⟨pre, p, [], by simp, hip, rfl, hbound, ?_, by simp⟩
      intro q hq
      rcases hacc2 : acc.2 with _ | i0
      · obtain ⟨h1, h2⟩ := hnone hacc2
        calc distSq size tx ty p < acc.1 := hd
          _ = (HANDLE_HIT_SLOP + HANDLE_RADIUS) ^ 2 := h1
          _ ≤ distSq size tx ty q := h2 q hq
      · obtain ⟨l₁, w, l₂, hpre, hwid, hdw, hlt, h1, h2⟩ := hsome i0 hacc2
        subst hpre
        rcases List.mem_append.mp hq with hq1 | hq2
        · exact lt_trans hd (h1 q hq1)
        · rcases List.mem_cons.mp hq2 with rfl | hq3
          · exact hdw ▸ hd
          · exact lt_of_lt_of_le hd (h2 q hq3)
  · rw [if_neg hd]
    push_neg at hd
    constructor
    · intro hne
      obtain ⟨h1, h2⟩ := hnone hne
      refine ⟨h1, ?_⟩
      intro q hq
      rcases List.mem_append.mp hq with hq1 | hq2
      · exact h2 q hq1
      · rw [List.mem_singleton.mp hq2]
        rw [← h1]
        exact hd
    · intro i hi
      obtain ⟨l₁, w, l₂, hpre, hwid, hdw, hlt, hl1, hl2⟩ := hsome i hi
      refine ⟨l₁, w, l₂ ++ [p], by rw [hpre, List.append_assoc]; rfl, hwid, hdw,
        hlt, hl1, ?_⟩
      intro q hq
      rcases List.mem_append.mp hq with hq1 | hq2
      · exact hl2 q hq1
      · rw [List.mem_singleton.mp hq2]
        exact hd

theorem fnpInv_foldl (size : Size) (tx ty : ℚ) :
    ∀ (rem pre : Mesh) (acc : ℚ × Option (List Char)),
      FnpInv size tx ty pre acc →
      FnpInv size tx ty (pre ++ rem) (rem.foldl (fnpStep size tx ty) acc) := by
  intro rem
  induction rem with
  | nil =>
    intro pre acc h
    simpa using h
  | cons p rem ih =>
    intro pre acc h
    have hnext := ih (pre ++ [p]) (fnpStep size tx ty acc p)
      (fnpInv_step size tx ty pre acc p h)
    rw [List.append_assoc] at hnext
    simpa using hnext

theorem fnpInv_final (mesh : Mesh) (size : Size) (tx ty : ℚ) :
    FnpInv size tx ty mesh
      (mesh.foldl (fnpStep size tx ty) ((HANDLE_HIT_SLOP + HANDLE_RADIUS) ^ 2, none)) := by
  have hinit : FnpInv size tx ty [] ((HANDLE_HIT_SLOP + HANDLE_RADIUS) ^ 2, none) := by
    refine ⟨fun _ => ⟨rfl, by simp⟩, fun i hi => ?_⟩
    simp at hi
  have := fnpInv_foldl size tx ty mesh [] _ hinit
  simpa using this

/-- C6: the hit test returns the id of the first minimum-distance point,
and only when that minimum (squared) distance is strictly below the squared
threshold `(HANDLE_HIT_SLOP + HANDLE_RADIUS)^2 = 32^2`; a touch exactly at a
point's pixel position always selects a point at distance zero; a touch at
least the threshold away from every point selects nothing; on ties the
first point in iteration order wins (all points before the winner are
strictly farther). -/
theorem C6_hit_test (mesh : Mesh) (size : Size) (tx ty : ℚ) :
    ((∀ p ∈ mesh, (HANDLE_HIT_SLOP + HANDLE_RADIUS) ^ 2 ≤ distSq size tx ty p) →
      findNearestPoint mesh size tx ty = none)
    ∧ (findNearestPoint mesh size tx ty = none →
      ∀ p ∈ mesh, (HANDLE_HIT_SLOP + HANDLE_RADIUS) ^ 2 ≤ distSq size tx ty p)
    ∧ (∀ p ∈ mesh, tx = p.x * size.width → ty = p.y * size.height →
      ∃ q ∈ mesh, findNearestPoint mesh size tx ty = some q.id ∧
        distSq size tx ty q = 0)
    ∧ (∀ i, findNearestPoint mesh size tx ty = some i →
      ∃ l₁ p l₂, mesh = l₁ ++ p :: l₂ ∧ p.id = i ∧
        distSq size tx ty p < (HANDLE_HIT_SLOP + HANDLE_RADIUS) ^ 2 ∧
        (∀ q ∈ l₁, distSq size tx ty p < distSq size tx ty q) ∧
        (∀ q ∈ l₂, distSq size tx ty p ≤ distSq size tx ty q)) := by
  obtain ⟨hnone, hsome⟩ := fnpInv_final mesh size tx ty
  have hchar : ∀ i, findNearestPoint mesh size tx ty = some i →
      ∃ l₁ p l₂, mesh = l₁ ++ p :: l₂ ∧ p.id = i ∧
        distSq size tx ty p < (HANDLE_HIT_SLOP + HANDLE_RADIUS) ^ 2 ∧
        (∀ q ∈ l₁, distSq size tx ty p < distSq size tx ty q) ∧
        (∀ q ∈ l₂, distSq size tx ty p ≤ distSq size tx ty q) := by
    intro i hi
    obtain ⟨l₁, p, l₂, hpre, hpid, hdp, hlt, h1, h2⟩ := hsome i hi
    exact ⟨l₁, p, l₂, hpre, hpid, by rw [hdp]; exact hlt,
      fun q hq => by rw [hdp]; exact h1 q hq,
      fun q hq => by rw [hdp]; exact h2 q hq⟩
  refine ⟨?_, ?_, ?_, hchar⟩
  · intro hfar
    rcases hres : findNearestPoint mesh size tx ty with _ | i
    · rfl
    · obtain ⟨l₁, p, l₂, hpre, hpid, hlt, h1, h2⟩ := hchar i hres
      have hp : p ∈ mesh := by
        rw [hpre]
        exact List.mem_append.mpr (Or.inr (List.mem_cons_self p l₂))
      exact absurd hlt (not_lt.mpr (hfar p hp))
  · intro hres p hp
    exact (hnone hres).2 p hp
  · intro p hp htx hty
    have hzero : distSq size tx ty p = 0 := by
      rw [distSq, htx, hty]
      ring
    rcases hres : findNearestPoint mesh size tx ty with _ | i
    · have := (hnone hres).2 p hp
      rw [hzero] at this
      have hpos : (0 : ℚ) < (HANDLE_HIT_SLOP + HANDLE_RADIUS) ^ 2 := by
        rw [HANDLE_HIT_SLOP, HANDLE_RADIUS]
        norm_num
      exact absurd this (not_le.mpr hpos)
    · obtain ⟨l₁, w, l₂, hpre, hwid, hlt, h1, h2⟩ := hchar i hres
      have hwmem : w ∈ mesh := by
        rw [hpre]
        exact List.mem_append.mpr (Or.inr (List.mem_cons_self w l₂))
      have hwzero : distSq size tx ty w = 0 := by
        rw [hpre] at hp
        rcases List.mem_append.mp hp with hp1 | hp2
        · have := h1 p hp1
          rw [hzero] at this
          exact absurd this (not_lt.mpr (distSq_nonneg size tx ty w))
        · rcases List.mem_cons.mp hp2 with rfl | hp3
          · exact hzero
          · have := h2 p hp3
            rw [hzero] at this
            exact le_antisymm this (distSq_nonneg size tx ty w)
      exact ⟨w, hwmem, by rw [hwid], hwzero⟩

theorem C6_witness :
    ({ id := ['0', '-', '0'], x := 0, y := 0 } : MeshPoint) ∈ buildDefaultMesh 2 2
    ∧ (0 : ℚ) = ({ id := ['0', '-', '0'], x := 0, y := 0 } : MeshPoint).x * (100 : ℚ)
    ∧ (0 : ℚ) = ({ id := ['0', '-', '0'], x := 0, y := 0 } : MeshPoint).y * (100 : ℚ)
    ∧ ∃ q ∈ buildDefaultMesh 2 2,
        findNearestPoint (buildDefaultMesh 2 2) { width := 100, height := 100 } 0 0 =
          some q.id ∧
        distSq { width := 100, height := 100 } 0 0 q = 0 :=
  ⟨by simp [buildDefaultMesh, List.range_succ, mkMeshPoint, mkPointId, natChars,
      natCharsAux, digitChar],
   by simp, by simp,
   (C6_hit_test (buildDefaultMesh 2 2) { width := 100, height := 100 } 0 0).2.2.1
     { id := ['0', '-', '0'], x := 0, y := 0 }
     (by simp [buildDefaultMesh, List.range_succ, mkMeshPoint, mkPointId, natChars,
       natCharsAux, digitChar])
     (by simp) (by simp)⟩

/-- C7: `updatePoint` replaces only the point with the given id — every
other position of the mesh is unchanged — and the replaced point gets the
touch clamped to `[0, width] × [0, height]` and normalised, so its new
coordinates lie in `[0, 1]` whatever the (possibly out-of-bounds) touch
position was. -/
theorem C7_drag_update (mesh : Mesh) (size : Size) (id : List Char) (tx ty : ℚ)
    (hw : 0 < size.width) (hh : 0 < size.height) :
    (updatePoint mesh size id tx ty).length = mesh.length
    ∧ (∀ (i : Nat) (p : MeshPoint), mesh[i]? = some p → ¬p.id = id →
        (updatePoint mesh size id tx ty)[i]? = some p)
    ∧ (∀ (i : Nat) (p : MeshPoint), mesh[i]? = some p → p.id = id →
        (updatePoint mesh size id tx ty)[i]? =
          some { p with x := max 0 (min size.width tx) / size.width,
                        y := max 0 (min size.height ty) / size.height })
    ∧ 0 ≤ max 0 (min size.width tx) / size.width
    ∧ max 0 (min size.width tx) / size.width ≤ 1
    ∧ 0 ≤ max 0 (min size.height ty) / size.height
    ∧ max 0 (min size.height ty) / size.height ≤ 1 := by
  refine ⟨?_, ?_, ?_, ?_, ?_, ?_, ?_⟩
  · simp only [updatePoint, List.length_map]
  · intro i p hp hne
    simp only [updatePoint, List.getElem?_map, hp, Option.map_some', if_neg hne]
  · intro i p hp hpe
    simp only [updatePoint, List.getElem?_map, hp, Option.map_some', if_pos hpe]
  · exact div_nonneg (le_max_left 0 _) (le_of_lt hw)
  · rw [div_le_one hw]
    exact max_le (le_of_lt hw) (min_le_left _ _)
  · exact div_nonneg (le_max_left 0 _) (le_of_lt hh)
  · rw [div_le_one hh]
    exact max_le (le_of_lt hh) (min_le_left _ _)

theorem C7_witness :
    (0 : ℚ) < ({ width := 100, height := 100 } : Size).width
    ∧ (0 : ℚ) < ({ width := 100, height := 100 } : Size).height
    ∧ (updatePoint (buildDefaultMesh 4 4) { width := 100, height := 100 }
        ['1', '-', '1'] 40 30).length = (buildDefaultMesh 4 4).length
    ∧ max 0 (min ({ width := 100, height := 100 } : Size).width 40) /
        ({ width := 100, height := 100 } : Size).width ≤ 1 :=
  ⟨by norm_num, by norm_num,
   (C7_drag_update (buildDefaultMesh 4 4) { width := 100, height := 100 }
     ['1', '-', '1'] 40 30 (by norm_num) (by norm_num)).1,
   (C7_drag_update (buildDefaultMesh 4 4) { width := 100, height := 100 }
     ['1', '-', '1'] 40 30 (by norm_num) (by norm_num)).2.2.2.2.1⟩

/-! ## Lemmas on the playback controller -/

theorem trigger_ne_escape {key : String} (h : key ∈ TRIGGER_KEYS) :
    ¬key = "Escape" := by
  fin_cases h <;> decide

theorem trigger_not_next {key : String} (h : key ∈ TRIGGER_KEYS) :
    key ∉ NEXT_CUE_KEYS := by
  fin_cases h <;> decide

theorem trigger_not_prev {key : String} (h : key ∈ TRIGGER_KEYS) :
    key ∉ PREV_CUE_KEYS := by
  fin_cases h <;> decide

/-- C8: in the Armed state (`armed`, not `playing`, no blackout) a trigger
key and the manual trigger button both move to Playing and disarm; while
Playing (disarmed) any further trigger — key or manual — is a no-op leaving
the state unchanged; and a completion signal while Playing, when the
current cue's loop flag is false and a next cue exists, advances
`currentCueIndex` by exactly 1 and returns to Armed. -/
theorem C8_cue_controller (cues : List VideoCue) (st : PlaybackState)
    (key : String) (harm : st.armed = true) (hplay : st.playing = false)
    (hblk : st.blackout = false) (hkey : key ∈ TRIGGER_KEYS) :
    handleKeyPress cues st key =
      { st with playing := true, armed := false, showControls := false }
    ∧ handleManualTrigger st =
      { st with playing := true, armed := false, showControls := false }
    ∧ (∀ key2 ∈ TRIGGER_KEYS,
        handleKeyPress cues
          { st with playing := true, armed := false, showControls := false } key2 =
          { st with playing := true, armed := false, showControls := false })
    ∧ handleManualTrigger
        { st with playing := true, armed := false, showControls := false } =
        { st with playing := true, armed := false, showControls := false }
    ∧ (currentCueLoop cues st.currentCueIndex = false →
        st.currentCueIndex < cues.length - 1 →
        handlePlaybackFinished cues
          { st with playing := true, armed := false, showControls := false } =
          { st with
            playing := false
            armed := true
            showControls := false
            currentCueIndex := st.currentCueIndex + 1 }) := by
  refine ⟨?_, ?_, ?_, ?_, ?_⟩
  · rw [handleKeyPress, if_neg (trigger_ne_escape hkey),
      if_neg (fun hcon => trigger_not_next hkey hcon.2),
      if_neg (fun hcon => trigger_not_prev hkey hcon.2),
      if_neg (by simp [harm, hblk]), if_pos hkey]
  · rw [handleManualTrigger, if_neg (by simp [harm, hblk])]
  · intro key2 hkey2
    rw [handleKeyPress, if_neg (trigger_ne_escape hkey2),
      if_neg (fun hcon => Bool.noConfusion hcon.1),
      if_neg (fun hcon => Bool.noConfusion hcon.1),
      if_pos (Or.inl rfl)]
  · rw [handleManualTrigger, if_pos (Or.inl rfl)]
  · intro hloop hnext
    simp only [handlePlaybackFinished]
    rw [if_pos ⟨hloop, hnext⟩]
    rw [handleNextCueIdx, if_pos hnext]

def demoCue : VideoCue :=
  { id := "c", name := "c", uri := "u", loop := false, createdAt := 0 }

def demoState : PlaybackState :=
  { playing := false, armed := true, showControls := true, blackout := false,
    currentCueIndex := 0 }

theorem C8_witness :
    demoState.armed = true ∧ demoState.playing = false
    ∧ demoState.blackout = false ∧ " " ∈ TRIGGER_KEYS
    ∧ currentCueLoop [demoCue, demoCue] demoState.currentCueIndex = false
    ∧ demoState.currentCueIndex < ([demoCue, demoCue] : List VideoCue).length - 1
    ∧ handleKeyPress [demoCue, demoCue] demoState " " =
        { demoState with playing := true, armed := false, showControls := false }
    ∧ handlePlaybackFinished [demoCue, demoCue]
        { demoState with playing := true, armed := false, showControls := false } =
        { demoState with
          playing := false
          armed := true
          showControls := false
          currentCueIndex := demoState.currentCueIndex + 1 } :=
  ⟨rfl, rfl, rfl, by decide, by decide, by decide,
   (C8_cue_controller [demoCue, demoCue] demoState " " rfl rfl rfl (by decide)).1,
   (C8_cue_controller [demoCue, demoCue] demoState " " rfl rfl rfl
     (by decide)).2.2.2.2 (by decide) (by decide)⟩

/-- C9 counterexample: the grid-shape derivation does not fail on a mesh
whose id is not a `"row-col"` pair — it silently yields `1` for both
dimensions (the `… + 1 || 1` fallback); likewise non-contiguous row indices
(`"0-0"` and `"5-0"`) silently yield 6 rows instead of failing with
`MalformedMesh`. -/
theorem C9_counterexample :
    derivedRows [{ id := ['a'], x := 0, y := 0 }] = 1
    ∧ derivedCols [{ id := ['a'], x := 0, y := 0 }] = 1
    ∧ derivedRows [{ id := mkPointId 0 0, x := 0, y := 0 },
        { id := mkPointId 5 0, x := 0, y := 0 }] = 6 := by
  decide

/-- C9 (amended): on a mesh containing a point whose id row (resp. column)
component does not parse as a number, the grid-shape derivation silently
defaults that dimension to `1` (`Math.max` over a `NaN` is `NaN` and
`NaN + 1 || 1` is `1`) instead of failing with `MalformedMesh`; a
non-contiguous mesh likewise produces a value rather than an error. -/
theorem C9_silent_default (mesh : Mesh) :
    (∀ p, p ∈ mesh → idRowNum? p.id = none → derivedRows mesh = 1)
    ∧ (∀ p, p ∈ mesh → idColNum? p.id = none → derivedCols mesh = 1) := by
  constructor
  · intro p hp hnone
    rw [derivedRows, if_pos ?_]
    rw [List.any_eq_true]
    refine ⟨idRowNum? p.id, List.mem_map.mpr ⟨p, hp, rfl⟩, ?_⟩
    rw [hnone]
    rfl
  · intro p hp hnone
    rw [derivedCols, if_pos ?_]
    rw [List.any_eq_true]
    refine ⟨idColNum? p.id, List.mem_map.mpr ⟨p, hp, rfl⟩, ?_⟩
    rw [hnone]
    rfl

theorem C9_witness :
    ({ id := ['a'], x := 0, y := 0 } : MeshPoint) ∈
      [({ id := ['a'], x := 0, y := 0 } : MeshPoint)]
    ∧ idRowNum? ['a'] = none
    ∧ derivedRows [{ id := ['a'], x := 0, y := 0 }] = 1 :=
  ⟨List.mem_cons_self _ _, by decide,
   (C9_silent_default [{ id := ['a'], x := 0, y := 0 }]).1
     { id := ['a'], x := 0, y := 0 } (List.mem_cons_self _ _) (by decide)⟩

/-- C10 counterexample: `buildDefaultMesh 1 1` does not fail with
`InvalidDimension`: it returns a one-point mesh.  (The spacing division by
`cols - 1 = 0` yields `NaN` in JS; in this `ℚ` embedding `0 / 0 = 0` — in
both readings a mesh is produced and no error is raised.) -/
theorem C10_counterexample :
    buildDefaultMesh 1 1 = [{ id := ['0', '-', '0'], x := 0, y := 0 }] := by
  simp [buildDefaultMesh, List.range_succ, mkMeshPoint, mkPointId, natChars,
    natCharsAux, digitChar]

/-- C10 (amended): `buildDefaultMesh` performs no dimension validation: for
`rows < 2` or `cols < 2` it still returns a full `rows * cols`-point mesh
(with division-by-zero coordinates), which reaches the caller rather than
an `InvalidDimension` failure. -/
theorem C10_no_validation (rows cols : Nat) (h : rows < 2 ∨ cols < 2) :
    (buildDefaultMesh rows cols).length = rows * cols :=
  buildDefaultMesh_length rows cols

theorem C10_witness :
    ((1 : Nat) < 2 ∨ (1 : Nat) < 2) ∧ (buildDefaultMesh 1 1).length = 1 * 1 :=
  ⟨Or.inl (by decide), C10_no_validation 1 1 (Or.inl (by decide))⟩

end ConcaveMapper
